import Mathlib

/-!
Shallow embedding of the bytehub `FeatureStore` core (`src/bytehub/store.py`)
and proofs about its specified behaviour.

The catalog backed by SQLAlchemy (`model.py`, `_connection.py`) is not part of
the sources; following the spec it is treated as a transactional
key-value-with-filter store.  A catalog operation is embedded as a pure
function `CatalogState → Except String CatalogState`: raising an exception
inside the session scope rolls the transaction back, so an `Except.error`
result leaves the state unchanged by construction.

Python strings, `None`, and keyword dictionaries are embedded as `String`,
`Option String`, and ordered association lists `List (String × String)`
(Python dicts preserve insertion order).  Opaque keyword values
(descriptions, storage options, metadata) are abstracted as strings; no
claim inspects them.
-/

deriving instance DecidableEq for Except

/-- Rendering of an `Option String` the way Python f-strings render
`None` / `str` values. -/
def pyStr : Option String → String
  | none => "None"
  | some s => s

/-- Python truthiness of an optional string (`None` and `""` are falsy). -/
def pytruthy : Option String → Bool
  | none => false
  | some s => !(s == "")

/-- Character-list prefix test (helper for substring containment). -/
def isPref : List Char → List Char → Bool
  | [], _ => true
  | _ :: _, [] => false
  | p :: ps, c :: cs => p == c && isPref ps cs

/-- Substring containment on character lists (Python `pat in s`). -/
def containsSub (pat : List Char) : List Char → Bool
  | [] => pat.isEmpty
  | c :: cs => isPref pat (c :: cs) || containsSub pat cs

/-- Python `pat in s` for strings. -/
def strContains (s pat : String) : Bool := containsSub pat.data s.data

/-- Python `"/" in s`. -/
def containsSlash (s : String) : Bool := s.data.contains '/'

/-- Python `s.split("/")` on the character list: split at every `'/'`. -/
def splitCharList : List Char → List (List Char)
  | [] => [[]]
  | c :: rest =>
    if c = '/' then [] :: splitCharList rest
    else
      match splitCharList rest with
      | [] => [[c]]
      | g :: gs => (c :: g) :: gs

/-- Python `s.split("/")`. -/
def splitSlash (s : String) : List String :=
  (splitCharList s.data).map (fun cs => String.mk cs)

/-- Python `"/".join(parts)`. -/
def joinSlash : List String → String
  | [] => ""
  | [s] => s
  | s :: rest => s ++ "/" ++ joinSlash rest

/-- `FeatureStore._split_name` (store.py:17-23): when no truthy namespace is
supplied and the name contains a separator, the first segment becomes the
namespace and the remaining segments, rejoined, become the name. -/
def split_name (ns name : Option String) : Option String × Option String :=
  if !(pytruthy ns) && pytruthy name && containsSlash (name.getD "") then
    let parts := splitSlash (name.getD "")
    (some (parts.headD ""), some (joinSlash parts.tail))
  else (ns, name)

/-- The spec's wording for resolving a slash-qualified bare string: "the first
segment becomes namespace ..., the remaining segments rejoined become name." -/
def splitNameSpec (n : String) : Option String × Option String :=
  (some ((splitSlash n).headD ""), some (joinSlash (splitSlash n).tail))

/-- Python `d.get(key)` on an ordered association list. -/
def dGet (d : List (String × String)) (key : String) : Option String :=
  (d.find? (fun kv => kv.1 == key)).map Prod.snd

/-- Python `row.get(key, default)`. -/
def dGetD (d : List (String × String)) (key : String) (dflt : Option String) :
    Option String :=
  match d.find? (fun kv => kv.1 == key) with
  | some kv => some kv.2
  | none => dflt

/-- `FeatureStore._validate_kwargs` (store.py:25-32); returns the message of
the first raised `ValueError`, `none` when validation passes.  The invalid-key
loop runs before the missing-mandatory loop, exactly as in the source. -/
def validate_kwargs (args : List (String × String)) (valid : List String)
    (mandatory : List String) : Option String :=
  match args.find? (fun kv => !(valid.contains kv.1)) with
  | some kv => some ("Invalid argument: " ++ kv.1)
  | none =>
    match mandatory.find? (fun m => !((args.map Prod.fst).contains m)) with
    | some m => some ("Missing mandatory argument: " ++ m)
    | none => none

/-- Heterogeneous identifier input accepted by `_unpack_list`: a bare string,
a DataFrame (rows of named columns; `cols` is the column index), a list of
strings/dicts, or anything else (rejected). -/
inductive IdItem where
  | str (s : String)
  | dict (d : List (String × String))
  | other
deriving DecidableEq

inductive IdInput where
  | str (s : String)
  | frame (cols : List String) (rows : List (List (String × String)))
  | list (items : List IdItem)
  | other
deriving DecidableEq

/-- Body of the list loop in `_unpack_list` (store.py:53-63). -/
def unpack_item (ns : Option String) : IdItem → Except String (Option String × Option String)
  | .str s => .ok (split_name ns (some s))
  | .dict d => .ok (split_name (dGet d "namespace") (dGet d "name"))
  | .other => .error "List must contain strings or dicts"

/-- `FeatureStore._unpack_list` (store.py:34-68). -/
def unpack_list (obj : IdInput) (ns : Option String) :
    Except String (List (Option String × Option String)) :=
  match obj with
  | .str s => .ok [split_name ns (some s)]
  | .frame cols rows =>
    if !(cols.contains "name") then .error "DataFrame must have a name column"
    else .ok (rows.map (fun row => (dGetD row "namespace" ns, dGetD row "name" none)))
  | .list items => items.mapM (unpack_item ns)
  | .other => .error "Must supply a string, dataframe or list specifying namespace/name"

/-- A catalog row (`Namespace` or `Feature` record).  `nspace` embeds the
Python attribute `namespace` (a Lean keyword).  Remaining attributes
(description, url, storage options, metadata, ...) are kept as an opaque
field list; no claim inspects them. -/
structure CatRec where
  nspace : Option String := none
  name : Option String := none
  fields : List (String × String) := []
deriving DecidableEq

/-- Modelled from the spec: `model.py` is not among the sources.  The spec
states that a feature's namespace "MUST already exist (checked via `exists`
on Namespace)" and that `create_feature` against a nonexistent namespace
always fails, so the `filter_by(namespace=...)` filter used by
`_exists(model.Namespace, namespace=...)` must match a Namespace row by its
name; a Namespace row therefore exposes its name under the namespace
filter as well. -/
def mkNamespaceRec (name : Option String) (payload : List (String × String)) : CatRec :=
  { nspace := name, name := name, fields := payload }

/-- The relational catalog: all Namespace rows and all Feature rows.
Uniqueness constraints enforced by the backing store are not modelled; no
claim depends on them. -/
structure CatalogState where
  namespaces : List CatRec := []
  features : List CatRec := []
deriving DecidableEq

/-- The two equality filters of `_list`/`_update`/`_delete` (store.py:75-79
etc.): `filter_by(namespace=...)` then `filter_by(name=...)`, each applied
only when the value is truthy. -/
def filter_ns_name (recs : List CatRec) (ns name : Option String) : List CatRec :=
  let r := recs
  let r := if pytruthy ns then r.filter (fun f => f.nspace == ns) else r
  let r := if pytruthy name then r.filter (fun f => f.name == name) else r
  r

/-- `FeatureStore._list` (store.py:70-91), restricted to the returned row
set; the pandas column reordering is presentational and not modelled.  The
regex filter (`df.name.str.contains(regex)`) is modelled as substring
containment — no claim exercises regex patterns. -/
def list_recs (recs : List CatRec) (ns name regex : Option String) : List CatRec :=
  let p := split_name ns name
  let r := filter_ns_name recs p.1 p.2
  if r.isEmpty then r
  else if pytruthy regex then r.filter (fun f => strContains (pyStr f.name) (regex.getD ""))
  else r

/-- `FeatureStore._exists` (store.py:137-139). -/
def exists_recs (recs : List CatRec) (ns name : Option String) : Bool :=
  !(list_recs recs ns name none).isEmpty

/-- Predicate equivalent of `filter_ns_name` for locating the single row an
update/delete acts on. -/
def recPred (ns name : Option String) (r : CatRec) : Bool :=
  (!(pytruthy ns) || r.nspace == ns) && (!(pytruthy name) || r.name == name)

/-- Python `payload` application, `obj.update_from_dict(payload)`: each
payload key overwrites the corresponding field. -/
def setField (fields : List (String × String)) (key v : String) : List (String × String) :=
  if (fields.map Prod.fst).contains key then
    fields.map (fun kv => if kv.1 == key then (key, v) else kv)
  else fields ++ [(key, v)]

def applyPayload (r : CatRec) (payload : List (String × String)) : CatRec :=
  { r with fields := payload.foldl (fun fs kv => setField fs kv.1 kv.2) r.fields }

/-- `FeatureStore._create` for `cls is model.Namespace` (store.py:124-126,
132-135): the payload is stored under the supplied name, no existence check. -/
def create_namespace_row (st : CatalogState) (name : Option String)
    (payload : List (String × String)) : Except String CatalogState :=
  .ok { st with namespaces := st.namespaces ++ [mkNamespaceRec name payload] }

/-- `FeatureStore._create` for `cls is model.Feature` (store.py:124-135):
split the name, require the namespace to exist, then insert the row. -/
def create_feature_row (st : CatalogState) (ns name : Option String)
    (payload : List (String × String)) : Except String CatalogState :=
  let p := split_name ns name
  if !(exists_recs st.namespaces p.1 none) then
    .error (pyStr p.1 ++ " namespace does not exist")
  else
    .ok { st with
          features := st.features ++ [{ nspace := p.1, name := p.2, fields := payload }] }

/-- `FeatureStore._update` on Namespace rows (store.py:108-122):
`one_or_none` raises on zero (our explicit error) and on multiple matches. -/
def update_namespace_row (st : CatalogState) (ns name : Option String)
    (payload : List (String × String)) : Except String CatalogState :=
  let p := split_name ns name
  match filter_ns_name st.namespaces p.1 p.2 with
  | [] => .error ("No existing Namespace named " ++ pyStr p.2 ++ " in " ++ pyStr p.1)
  | [_] => .ok { st with
                 namespaces := st.namespaces.map
                   (fun r => if recPred p.1 p.2 r then applyPayload r payload else r) }
  | _ => .error "Multiple rows were found when exactly one was required"

/-- `FeatureStore._delete` on Namespace rows (store.py:93-106). -/
def delete_namespace_row (st : CatalogState) (ns name : Option String) :
    Except String CatalogState :=
  let p := split_name ns name
  match filter_ns_name st.namespaces p.1 p.2 with
  | [] => .error ("No existing Namespace named " ++ pyStr p.2 ++ " in " ++ pyStr p.1)
  | [_] => .ok { st with namespaces := st.namespaces.eraseP (recPred p.1 p.2) }
  | _ => .error "Multiple rows were found when exactly one was required"

/-- `FeatureStore.create_namespace` (store.py:162-177). -/
def create_namespace (st : CatalogState) (name : String)
    (kwargs : List (String × String)) : Except String CatalogState :=
  match validate_kwargs kwargs ["description", "url", "storage_options", "meta"] ["url"] with
  | some e => .error e
  | none => create_namespace_row st (some name) kwargs

/-- `FeatureStore.update_namespace` (store.py:179-192). -/
def update_namespace (st : CatalogState) (name : String)
    (kwargs : List (String × String)) : Except String CatalogState :=
  match validate_kwargs kwargs ["description", "storage_options", "meta"] [] with
  | some e => .error e
  | none => update_namespace_row st none (some name) kwargs

/-- `FeatureStore.list_features` (store.py:206-226). -/
def list_features (st : CatalogState) (kwargs : List (String × String)) :
    Except String (List CatRec) :=
  match validate_kwargs kwargs ["name", "namespace", "regex"] [] with
  | some e => .error e
  | none => .ok (list_recs st.features (dGet kwargs "namespace") (dGet kwargs "name")
                   (dGet kwargs "regex"))

/-- `FeatureStore.delete_namespace` (store.py:194-204): refuse when any
feature still references the namespace, otherwise delegate to `_delete`. -/
def delete_namespace (st : CatalogState) (name : String) : Except String CatalogState :=
  match list_features st [("namespace", name)] with
  | .error e => .error e
  | .ok fs =>
    if !(fs.isEmpty) then
      .error (name ++ " still contains features: these must be deleted first")
    else delete_namespace_row st none (some name)

/-- `FeatureStore.create_feature` (store.py:228-241). -/
def create_feature (st : CatalogState) (name : String) (ns : Option String)
    (kwargs : List (String × String)) : Except String CatalogState :=
  match validate_kwargs kwargs ["description", "meta", "partition"] [] with
  | some e => .error e
  | none => create_feature_row st ns (some name) kwargs

/-!
## The write path: `save_dataframe`

For the write path a DataFrame is embedded by its ordered column index;
time-series cell values are owned by the out-of-scope physical backend and
never inspected by `save_dataframe` itself.  A call's observable effect is
the ordered list of per-feature backend saves it performed (each recorded as
the `(namespace, name)` pair passed to `feature.save`) together with the
message of the exception that ended the call, if any: a Python exception
aborts the loop but does not undo earlier backend writes.
-/

structure DFrame where
  cols : List String
deriving DecidableEq

/-- Lexicographic code-point comparison on character lists: Python's `<` on
strings. -/
def strLtChars : List Char → List Char → Bool
  | [], [] => false
  | [], _ :: _ => true
  | _ :: _, [] => false
  | a :: as, b :: bs =>
    if a.toNat < b.toNat then true
    else if b.toNat < a.toNat then false
    else strLtChars as bs

def strLt (a b : String) : Bool := strLtChars a.data b.data

/-- Sorted insertion of a string keeping the list duplicate-free. -/
def insertStr (x : String) : List String → List String
  | [] => [x]
  | y :: ys =>
    if x = y then y :: ys
    else if strLt x y then x :: y :: ys
    else y :: insertStr x ys

/-- Sorted, duplicate-free copy of a list of strings: the result of a pandas
`Index.difference`, which sorts. -/
def sortDedup (l : List String) : List String := l.foldr insertStr []

/-- `df.columns.difference(["time", "created_time"])` (store.py:337). -/
def featureColumns (df : DFrame) : List String :=
  sortDedup (df.cols.filter (fun c => !(c == "time" || c == "created_time")))

/-- `df[[*df.columns.difference(feature_columns), feature_name]]`
(store.py:367): the non-feature columns (sorted by the difference) followed
by the one selected feature column. -/
def subframe (df : DFrame) (feature_columns : List String) (fname : String) : DFrame :=
  { cols := sortDedup (df.cols.filter (fun c => !(feature_columns.contains c))) ++ [fname] }

/-- A performed backend write: the `(namespace, name)` identity of the
feature whose `save` was invoked. -/
abbrev SaveEvent := Option String × Option String

/-- `FeatureStore.save_dataframe` (store.py:324-368), with an explicit
recursion depth.  The multi-column branch recurses on single-column
sub-frames only, so the depth never exceeds 2 (`save_dataframe_aux_fuel_indep`
below); the depth-0 default is unreachable from `save_dataframe`. -/
def save_dataframe_aux : Nat → CatalogState → DFrame → Option String → Option String →
    List SaveEvent × Option String
  | 0, _, _, _, _ => ([], some "recursion depth exceeded")
  | fuel + 1, st, df, name, ns =>
    let feature_columns := featureColumns df
    if feature_columns.length == 1 then
      -- single feature to save
      let c := feature_columns.headD ""
      if c == "value" && !(pytruthy name) then ([], some "Must specify feature name")
      else
        -- when the column is not literally "value" it names the feature and
        -- is renamed to "value"; the rename only affects the frame handed to
        -- the backend, which this embedding does not inspect
        let name := if c == "value" then name else some c
        if !(exists_recs st.features ns name) then
          ([], some ("Feature named " ++ pyStr name ++ " does not exist in " ++ pyStr ns))
        else
          let p := split_name ns name
          match st.features.filter (fun f => f.name == p.2 && f.nspace == p.1) with
          | [_] => ([(p.1, p.2)], none)
          | [] => ([], some "Exactly one row was required but zero were found")
          | _ => ([], some "Multiple rows were found when exactly one was required")
    else
      -- multiple features in column names: the pre-check loop tests
      -- `self._exists(model.Feature, namespace, name)` with the *call's*
      -- name/namespace arguments on every iteration — the loop variable
      -- `feature_name` is not consulted (store.py:360-364)
      match feature_columns.find? (fun _ => !(exists_recs st.features ns name)) with
      | some _ =>
        ([], some ("Feature named " ++ pyStr name ++ " does not exist in " ++ pyStr ns))
      | none =>
        feature_columns.foldl
          (fun acc fname =>
            match acc with
            | (evs, some e) => (evs, some e)
            | (evs, none) =>
              let r := save_dataframe_aux fuel st (subframe df feature_columns fname) none none
              (evs ++ r.1, r.2))
          ([], none)

def save_dataframe (st : CatalogState) (df : DFrame) (name ns : Option String) :
    List SaveEvent × Option String :=
  save_dataframe_aux 2 st df name ns

/-!
## The read path: `load_dataframe`

A per-feature series returned by the out-of-scope physical backend
(`feature.load`, spec §6: "series-of(time, value)" indexed by `time`, the
primary index) is embedded as a list of `(time, value)` pairs; the claims'
hypotheses require its time index to be strictly increasing, the contract of
a time-indexed series.  A combined frame is a `Table`: an explicit column
count together with rows of `(time, cells)` where a missing cell is `none`
(pandas `NaN`).  Columns are tracked positionally, in request order; the
rename of each `value` column to `"namespace/name"` is presentational.

`pd.concat(dfs, join="outer", axis=1)` on monotonic time indexes reindexes
every frame to the sorted union of the indexes (`concatOuter`);
`dd.merge(left, right, left_index=True, right_index=True, how="outer")`
joins two frames on the sorted union of their indexes, padding the absent
side with missing cells (`mergeOuter`); `.ffill()` replaces each missing
cell by the last non-missing value above it in its column (`ffillRows`).
-/

abbrev Series := List (Nat × Int)

def times (d : Series) : List Nat := d.map Prod.fst

/-- The backend contract for a time-indexed series: strictly increasing
times. -/
def TSorted (d : Series) : Prop := List.Pairwise (· < ·) (times d)

instance (d : Series) : Decidable (TSorted d) := by
  unfold TSorted; infer_instance

/-- The cell of series `d` at time `t`: its value when `t` is in the index,
missing otherwise. -/
def lookupT (d : Series) (t : Nat) : Option Int :=
  (d.find? (fun x => x.1 == t)).map Prod.snd

/-- The value of `d` at the latest index time `≤ t` (missing when `d` has no
observation at or before `t`): what forward-fill leaves at `t`. -/
def lastLE (d : Series) (t : Nat) : Option Int :=
  ((d.filter (fun x => x.1 ≤ t)).getLast?).map Prod.snd

/-- The value of `d` at the latest index time `< t`. -/
def lastLT (d : Series) (t : Nat) : Option Int :=
  ((d.filter (fun x => decide (x.1 < t))).getLast?).map Prod.snd

/-- Sorted duplicate-free insertion of a time into an index. -/
def insNat (x : Nat) : List Nat → List Nat
  | [] => [x]
  | y :: ys =>
    if x = y then y :: ys
    else if x < y then x :: y :: ys
    else y :: insNat x ys

/-- Sorted union of two time indexes (the second one sorted). -/
def sortedUnion (xs ys : List Nat) : List Nat := xs.foldr insNat ys

/-- The union of the time indexes of all requested series. -/
def unionAll (dfs : List Series) : List Nat :=
  dfs.foldr (fun d acc => sortedUnion (times d) acc) []

/-- A combined frame with positional columns: `width` columns, rows of
`(time, cells)`.  This is the label-erased view of a combined result; the
column labels, where the two combine modes can genuinely differ, are
carried by `LTable` below, and `eraseLabels` projects one onto the other. -/
structure Table where
  width : Nat
  rows : List (Nat × List (Option Int))
deriving DecidableEq

/-- A single-feature frame as a one-column table. -/
def toTable (d : Series) : Table :=
  ⟨1, d.map (fun x => (x.1, [some x.2]))⟩

def rowTimes (tb : Table) : List Nat := tb.rows.map Prod.fst

/-- The cells of `tb` at time `t`; a full row of missing cells when `t` is
not in `tb`'s index (the padding an outer join inserts). -/
def rowAt (tb : Table) (t : Nat) : List (Option Int) :=
  match tb.rows.find? (fun r => r.1 == t) with
  | some r => r.2
  | none => List.replicate tb.width none

/-- `dd.merge(left, right, left_index=True, right_index=True, how="outer")`,
label-erased: index the result on the sorted union of both indexes and
concatenate the (padded) rows.  The label behaviour of the merge — its
`_x`/`_y` suffixing of overlapping column labels — is modelled by
`mergeOuterL` below. -/
def mergeOuter (l r : Table) : Table :=
  ⟨l.width + r.width,
   (sortedUnion (rowTimes l) (rowTimes r)).map (fun t => (t, rowAt l t ++ rowAt r t))⟩

/-- `pd.concat(dfs, join="outer", axis=1)` over monotonic time indexes:
index the result on the sorted union of all indexes, one column per frame. -/
def concatOuter (dfs : List Series) : Table :=
  ⟨dfs.length, (unionAll dfs).map (fun t => (t, dfs.map (fun d => lookupT d t)))⟩

/-- `.ffill()`: scan the rows downwards, each missing cell taking the last
non-missing value seen in its column (`carry`). -/
def ffillRows (carry : List (Option Int)) :
    List (Nat × List (Option Int)) → List (Nat × List (Option Int))
  | [] => []
  | (t, vs) :: rest =>
    let merged := List.zipWith (fun v c => v.orElse (fun _ => c)) vs carry
    (t, merged) :: ffillRows merged rest

def ffillT (tb : Table) : Table :=
  ⟨tb.width, ffillRows (List.replicate tb.width none) tb.rows⟩

/-- The `mode == "pandas"` combine (store.py:311-312):
`pd.concat(dfs, join="outer", axis=1).ffill()`; `pd.concat` of an empty list
raises. -/
def combine_pandas (dfs : List Series) : Except String Table :=
  match dfs with
  | [] => .error "No objects to concatenate"
  | _ => .ok (ffillT (concatOuter dfs))

/-- The `mode == "dask"` combine (store.py:313-320):
`functools.reduce(lambda left, right: dd.merge(left, right, ...), dfs).ffill()`;
`reduce` of an empty list raises. -/
def combine_dask (dfs : List Series) : Except String Table :=
  match dfs with
  | [] => .error "reduce() of empty iterable with no initial value"
  | d :: rest =>
    .ok (ffillT (rest.foldl (fun acc r => mergeOuter acc (toTable r)) (toTable d)))

/-- One iteration of the load loop (store.py:292-310): look the feature up
with `one_or_none` (`filter_by(name=..., namespace=...)`, both filters
unconditional) and call the physical backend's `load`, abstracted as the
ambient function `backend` (its `from_date`/`to_date`/`freq`/`time_travel`
arguments are fixed for the whole call and passed through unchanged). -/
def load_one (st : CatalogState) (backend : Option String → Option String → Series)
    (p : Option String × Option String) : Except String Series :=
  match st.features.filter (fun f => f.name == p.2 && f.nspace == p.1) with
  | [] => .error ("No feature named " ++ pyStr p.2 ++ " exists in " ++ pyStr p.1)
  | [_] => .ok (backend p.1 p.2)
  | _ => .error "Multiple rows were found when exactly one was required"

/-- `FeatureStore.load_dataframe` (store.py:267-322). -/
def load_dataframe (st : CatalogState) (backend : Option String → Option String → Series)
    (features : IdInput) (mode : String) : Except String Table :=
  if !(mode == "dask" || mode == "pandas") then
    .error "Mode must be either \"dask\" or \"pandas\""
  else
    match unpack_list features none with
    | .error e => .error e
    | .ok pairs =>
      match pairs.mapM (load_one st backend) with
      | .error e => .error e
      | .ok dfs => if mode == "pandas" then combine_pandas dfs else combine_dask dfs

/-!
## The read path with column labels

`Table` above is the label-erased view of a combined frame: columns are
positional, in request order.  The definitions below carry the column
labels as well, which is where the two combine strategies genuinely
diverge: the rename of each per-feature `value` column to
`"namespace/name"` (store.py:310) can produce duplicate labels (the same
feature requested twice, or colliding `namespace/name` serializations), and
then `pd.concat` keeps the duplicate labels while `dd.merge` renames the
overlapping pair with its default `_x`/`_y` suffixes.  `eraseLabels` and
`load_dataframe_erase` (below) prove the labeled embedding projects onto
the label-erased one, so the two views agree on everything but labels.
-/

/-- A combined frame with its column labels; the column count is
`names.length`. -/
structure LTable where
  names : List String
  rows : List (Nat × List (Option Int))
deriving DecidableEq

/-- The label-erased view of a labeled frame. -/
def eraseLabels (tb : LTable) : Table := ⟨tb.names.length, tb.rows⟩

/-- A loaded per-feature frame after the rename
`df.rename(columns={"value": f"{namespace}/{name}"})` (store.py:310). -/
def toLTable (label : String) (d : Series) : LTable := ⟨[label], (toTable d).rows⟩

/-- `pd.concat(dfs, join="outer", axis=1)` keeps every input's label, even
when labels repeat; the rows are those of the label-erased concat. -/
def concatOuterL (dfs : List (String × Series)) : LTable :=
  ⟨dfs.map Prod.fst, (concatOuter (dfs.map Prod.snd)).rows⟩

/-- `dd.merge(left, right, left_index=True, right_index=True, how="outer")`
with its default suffixes: a label occurring on both sides comes out as
`label_x` (left) and `label_y` (right); non-overlapping labels are kept.
The rows do not depend on labels and are those of the label-erased merge. -/
def mergeOuterL (l r : LTable) : LTable :=
  ⟨l.names.map (fun n => if r.names.contains n then n ++ "_x" else n) ++
     r.names.map (fun n => if l.names.contains n then n ++ "_y" else n),
   (mergeOuter (eraseLabels l) (eraseLabels r)).rows⟩

/-- `.ffill()` on a labeled frame: labels unchanged, rows forward-filled. -/
def ffillL (tb : LTable) : LTable :=
  ⟨tb.names, (ffillT (eraseLabels tb)).rows⟩

/-- The `mode == "pandas"` combine with labels (store.py:311-312). -/
def combine_pandas_labeled (dfs : List (String × Series)) : Except String LTable :=
  match dfs with
  | [] => .error "No objects to concatenate"
  | _ => .ok (ffillL (concatOuterL dfs))

/-- The `mode == "dask"` combine with labels (store.py:313-320). -/
def combine_dask_labeled (dfs : List (String × Series)) : Except String LTable :=
  match dfs with
  | [] => .error "reduce() of empty iterable with no initial value"
  | d :: rest =>
    .ok (ffillL (rest.foldl (fun acc r => mergeOuterL acc (toLTable r.1 r.2)) (toLTable d.1 d.2)))

/-- One iteration of the load loop keeping the `"namespace/name"` label the
`value` column is renamed to (store.py:292-310); Python renders a `None`
namespace or name as the string `"None"` inside the f-string. -/
def load_one_labeled (st : CatalogState) (backend : Option String → Option String → Series)
    (p : Option String × Option String) : Except String (String × Series) :=
  match st.features.filter (fun f => f.name == p.2 && f.nspace == p.1) with
  | [] => .error ("No feature named " ++ pyStr p.2 ++ " exists in " ++ pyStr p.1)
  | [_] => .ok (pyStr p.1 ++ "/" ++ pyStr p.2, backend p.1 p.2)
  | _ => .error "Multiple rows were found when exactly one was required"

/-- `FeatureStore.load_dataframe` (store.py:267-322) with column labels. -/
def load_dataframe_labeled (st : CatalogState)
    (backend : Option String → Option String → Series)
    (features : IdInput) (mode : String) : Except String LTable :=
  if !(mode == "dask" || mode == "pandas") then
    .error "Mode must be either \"dask\" or \"pandas\""
  else
    match unpack_list features none with
    | .error e => .error e
    | .ok pairs =>
      match pairs.mapM (load_one_labeled st backend) with
      | .error e => .error e
      | .ok dfs =>
        if mode == "pandas" then combine_pandas_labeled dfs else combine_dask_labeled dfs

/-!
## General lemmas about the embedded operations
-/

theorem split_name_none_snd (x : Option String) : split_name x none = (x, none) := by
  simp [split_name, pytruthy]

theorem split_name_some_eq (ns : Option String) (n : String) :
    split_name ns (some n) =
      if (!(pytruthy ns) && !(n == "") && containsSlash n) then splitNameSpec n
      else (ns, some n) := rfl

theorem containsSlash_empty : containsSlash "" = false := rfl

theorem list_recs_no_regex (recs : List CatRec) (ns name : Option String) :
    list_recs recs ns name none =
      filter_ns_name recs (split_name ns name).1 (split_name ns name).2 := by
  unfold list_recs
  cases h : (filter_ns_name recs (split_name ns name).1 (split_name ns name).2).isEmpty <;>
    simp [pytruthy, h]

theorem mem_filter_ns_name_skip_name (recs : List CatRec) (ns : Option String)
    (f : CatRec) (hf : f ∈ recs) (hns : pytruthy ns = true → f.nspace = ns) :
    f ∈ filter_ns_name recs ns none := by
  unfold filter_ns_name
  cases h : pytruthy ns <;> simp [pytruthy, h, List.mem_filter, hf]
  exact hns h

theorem validate_kwargs_invalid_key (args : List (String × String))
    (valid mandatory : List String) (h : ∃ kv ∈ args, kv.1 ∉ valid) :
    ∃ k, k ∉ valid ∧
      validate_kwargs args valid mandatory = some ("Invalid argument: " ++ k) := by
  have hsome : (args.find? (fun kv => !(valid.contains kv.1))).isSome = true := by
    rw [List.find?_isSome]
    obtain ⟨kv, hkv, hnot⟩ := h
    exact ⟨kv, hkv, by simpa [List.contains, List.elem_iff] using hnot⟩
  obtain ⟨kv, hkv⟩ := Option.isSome_iff_exists.mp hsome
  have hbad : kv.1 ∉ valid := by
    have := List.find?_some hkv
    simpa [List.contains, List.elem_iff] using this
  refine ⟨kv.1, hbad, ?_⟩
  unfold validate_kwargs
  rw [hkv]

theorem validate_kwargs_all_valid (args : List (String × String))
    (valid mandatory : List String) (h : ∀ kv ∈ args, kv.1 ∈ valid) :
    validate_kwargs args valid mandatory =
      match mandatory.find? (fun m => !((args.map Prod.fst).contains m)) with
      | some m => some ("Missing mandatory argument: " ++ m)
      | none => none := by
  have hnone : args.find? (fun kv => !(valid.contains kv.1)) = none := by
    rw [List.find?_eq_none]
    intro kv hkv
    simpa [List.contains, List.elem_iff] using h kv hkv
  unfold validate_kwargs
  rw [hnone]

/-!
## Claims
-/

/-- C1: the claim states that a multi-feature `save_dataframe` whose columns
name a missing feature fails up front, before any backend save.  The code's
pre-check loop tests `_exists(model.Feature, namespace, name)` with the
call's `name`/`namespace` arguments (both `None` here) instead of the loop
variable, so it passes whenever the catalog holds any feature at all; the
per-column saves then run until the missing feature is hit.  At this input —
catalog holding only feature `ns/f1`, frame with columns
`["time", "ns/f1", "ns/f2"]` — the call saves `ns/f1` to the backend and
only then fails on `ns/f2`, contradicting the claim. -/
theorem c1_save_precheck_uses_stale_args :
    save_dataframe
      ⟨[mkNamespaceRec (some "ns") []], [{ nspace := some "ns", name := some "f1" }]⟩
      ⟨["time", "ns/f1", "ns/f2"]⟩ none none =
      ([(some "ns", some "f1")], some "Feature named ns/f2 does not exist in None") := by
  decide

/-- C9: a `save_dataframe` call on a frame with no feature columns (columns
all within `{time, created_time}`) returns silently for every catalog state:
both loops of the multi-column branch run over an empty column list, so no
existence check fires, no error is raised, and no backend save happens. -/
theorem c9_save_no_feature_columns_noop (st : CatalogState) (df : DFrame)
    (h : ∀ c ∈ df.cols, c = "time" ∨ c = "created_time") :
    save_dataframe st df none none = ([], none) := by
  have hfc : featureColumns df = [] := by
    unfold featureColumns
    have hnil : df.cols.filter (fun c => !(c == "time" || c == "created_time")) = [] := by
      rw [List.filter_eq_nil_iff]
      intro c hc
      rcases h c hc with h' | h' <;> simp [h']
    rw [hnil]
    rfl
  simp [save_dataframe, save_dataframe_aux, hfc]

/-- C9 witness: the empty catalog and a frame with only a `time` column. -/
theorem c9_save_no_feature_columns_noop_w :
    (∀ c ∈ (["time"] : List String), c = "time" ∨ c = "created_time") ∧
    save_dataframe ⟨[], []⟩ ⟨["time"]⟩ none none = ([], none) :=
  ⟨by decide, c9_save_no_feature_columns_noop ⟨[], []⟩ ⟨["time"]⟩ (by decide)⟩

/-- C5: `create_feature` naming a truthy namespace (directly or via a
`"namespace/name"` string) that no Namespace row carries fails with the
namespace-not-found error; since the error is raised before `session.add`,
the transaction inserts no Feature row and the catalog is unchanged (an
`Except.error` result carries no successor state).  Keyword validation is
assumed to pass — an unrecognized kwarg would fail earlier with a different
error. -/
theorem c5_create_feature_missing_namespace (st : CatalogState) (name : String)
    (ns : Option String) (kwargs : List (String × String)) (nsv : String)
    (hk : validate_kwargs kwargs ["description", "meta", "partition"] [] = none)
    (hsplit : (split_name ns (some name)).1 = some nsv)
    (hnsv : nsv ≠ "")
    (habsent : ∀ r ∈ st.namespaces, r.nspace ≠ some nsv) :
    create_feature st name ns kwargs = .error (nsv ++ " namespace does not exist") := by
  have hb : (nsv == "") = false := beq_eq_false_iff_ne.mpr hnsv
  have hfilter : st.namespaces.filter (fun f => f.nspace == some nsv) = [] := by
    rw [List.filter_eq_nil_iff]
    intro r hr
    simpa using habsent r hr
  have hex : exists_recs st.namespaces (some nsv) none = false := by
    rw [exists_recs, list_recs_no_regex, split_name_none_snd]
    simp [filter_ns_name, pytruthy, hb, hfilter]
  unfold create_feature
  rw [hk]
  simp only [create_feature_row]
  rw [hsplit, hex]
  simp [pyStr]

/-- C5 witness: catalog holding only namespace `other`; creating feature
`feat` in namespace `ns` fails. -/
theorem c5_create_feature_missing_namespace_w :
    validate_kwargs [] ["description", "meta", "partition"] [] = none ∧
    (split_name (some "ns") (some "feat")).1 = some "ns" ∧
    create_feature ⟨[mkNamespaceRec (some "other") []], []⟩ "feat" (some "ns") [] =
      .error "ns namespace does not exist" :=
  ⟨by decide, by decide,
   c5_create_feature_missing_namespace ⟨[mkNamespaceRec (some "other") []], []⟩
     "feat" (some "ns") [] "ns" (by decide) (by decide) (by decide) (by decide)⟩

/-- C6: `delete_namespace` on a namespace still referenced by a feature
always fails with the non-empty-namespace error; the error is raised before
`_delete` is reached, so neither the Namespace row nor any Feature row is
touched (an `Except.error` result carries no successor state). -/
theorem c6_delete_nonempty_namespace (st : CatalogState) (ns : String) (f : CatRec)
    (hf : f ∈ st.features) (hns : f.nspace = some ns) :
    delete_namespace st ns =
      .error (ns ++ " still contains features: these must be deleted first") := by
  have hmem : f ∈ filter_ns_name st.features (some ns) none :=
    mem_filter_ns_name_skip_name st.features (some ns) f hf (fun _ => hns)
  have hne : (list_recs st.features (some ns) none none).isEmpty = false := by
    rw [list_recs_no_regex, split_name_none_snd]
    rcases h : (filter_ns_name st.features (some ns) none).isEmpty with _ | _
    · rfl
    · rw [List.isEmpty_iff] at h
      rw [h] at hmem
      cases hmem
  have hlf : list_features st [("namespace", ns)] =
      .ok (list_recs st.features (some ns) none none) := rfl
  unfold delete_namespace
  rw [hlf]
  simp [hne]

/-- C6 witness: namespace `ns` still holds feature `f1`. -/
theorem c6_delete_nonempty_namespace_w :
    ({ nspace := some "ns", name := some "f1" } : CatRec) ∈
      (⟨[mkNamespaceRec (some "ns") []], [{ nspace := some "ns", name := some "f1" }]⟩ :
        CatalogState).features ∧
    delete_namespace
      ⟨[mkNamespaceRec (some "ns") []], [{ nspace := some "ns", name := some "f1" }]⟩ "ns" =
      .error "ns still contains features: these must be deleted first" :=
  ⟨by decide,
   c6_delete_nonempty_namespace
     ⟨[mkNamespaceRec (some "ns") []], [{ nspace := some "ns", name := some "f1" }]⟩
     "ns" { nspace := some "ns", name := some "f1" } (by decide) (by decide)⟩

/-- C7 counterexample: the claim asserts that a `create_namespace` call
without `url` fails with the missing-argument error.  With an unrecognized
keyword and no `url` the invalid-keyword loop fires first, so the error is
the invalid-argument one instead. -/
theorem c7_counterexample :
    create_namespace ⟨[], []⟩ "n" [("bogus", "1")] = .error "Invalid argument: bogus" ∧
    create_namespace ⟨[], []⟩ "n" [("bogus", "1")] ≠
      .error "Missing mandatory argument: url" := by
  decide

/-- C7 (amended): `create_namespace` whose supplied keywords are all
recognized but lack `url` fails with the missing-argument error; a call
supplying any unrecognized keyword fails with an invalid-argument error
(that check runs first).  In either case `_create` is never reached, so no
namespace row is created (an `Except.error` result carries no successor
state). -/
theorem c7_create_namespace_validation (st : CatalogState) (name : String)
    (kwargs : List (String × String)) :
    ((∀ kv ∈ kwargs, kv.1 ∈ ["description", "url", "storage_options", "meta"]) →
      "url" ∉ kwargs.map Prod.fst →
      create_namespace st name kwargs = .error "Missing mandatory argument: url") ∧
    ((∃ kv ∈ kwargs, kv.1 ∉ ["description", "url", "storage_options", "meta"]) →
      ∃ k, k ∉ ["description", "url", "storage_options", "meta"] ∧
        create_namespace st name kwargs = .error ("Invalid argument: " ++ k)) := by
  constructor
  · intro hall hurl
    have hv := validate_kwargs_all_valid kwargs
      ["description", "url", "storage_options", "meta"] ["url"] hall
    have hfind : (["url"] : List String).find?
        (fun m => !((kwargs.map Prod.fst).contains m)) = some "url" := by
      simp [List.find?, hurl]
    rw [hfind] at hv
    unfold create_namespace
    rw [hv]
    rfl
  · intro hbad
    obtain ⟨k, hk, hv⟩ := validate_kwargs_invalid_key kwargs
      ["description", "url", "storage_options", "meta"] ["url"] hbad
    refine ⟨k, hk, ?_⟩
    unfold create_namespace
    rw [hv]

/-- C7 witness: a call with only `description` hits the missing-`url` error;
a call with a bogus keyword hits the invalid-argument error. -/
theorem c7_create_namespace_validation_w :
    create_namespace ⟨[], []⟩ "n" [("description", "d")] =
      .error "Missing mandatory argument: url" ∧
    ∃ k, k ∉ ["description", "url", "storage_options", "meta"] ∧
      create_namespace ⟨[], []⟩ "n" [("bad", "1")] = .error ("Invalid argument: " ++ k) :=
  ⟨(c7_create_namespace_validation ⟨[], []⟩ "n" [("description", "d")]).1
      (by decide) (by decide),
   (c7_create_namespace_validation ⟨[], []⟩ "n" [("bad", "1")]).2
      ⟨("bad", "1"), by decide, by decide⟩⟩

/-- C8: `update_namespace` validates its keywords against
`{description, storage_options, meta}`, so any call supplying `url` fails
with an invalid-argument error (naming `url` itself or an earlier
unrecognized keyword) before `_update` runs: the namespace row is unchanged
and a namespace's url can never be changed this way. -/
theorem c8_update_namespace_url_rejected (st : CatalogState) (name : String)
    (kwargs : List (String × String)) (h : "url" ∈ kwargs.map Prod.fst) :
    ∃ k, k ∉ ["description", "storage_options", "meta"] ∧
      update_namespace st name kwargs = .error ("Invalid argument: " ++ k) := by
  obtain ⟨kv, hkv, hfst⟩ := List.mem_map.mp h
  have hbad : ∃ kv ∈ kwargs, kv.1 ∉ (["description", "storage_options", "meta"] : List String) := by
    refine ⟨kv, hkv, ?_⟩
    rw [hfst]
    decide
  obtain ⟨k, hk, hv⟩ := validate_kwargs_invalid_key kwargs
    ["description", "storage_options", "meta"] [] hbad
  refine ⟨k, hk, ?_⟩
  unfold update_namespace
  rw [hv]

/-- C8 witness. -/
theorem c8_update_namespace_url_rejected_w :
    "url" ∈ ([("url", "s3://x")] : List (String × String)).map Prod.fst ∧
    ∃ k, k ∉ ["description", "storage_options", "meta"] ∧
      update_namespace ⟨[], []⟩ "n" [("url", "s3://x")] =
        .error ("Invalid argument: " ++ k) :=
  ⟨by decide, c8_update_namespace_url_rejected ⟨[], []⟩ "n" [("url", "s3://x")] (by decide)⟩

/-- C2 counterexample: the claim asserts that for a slash-qualified bare
string the first segment becomes the namespace even when a default namespace
is supplied ("overriding the default").  `_split_name` only splits when the
supplied namespace is falsy: with default `"default"` the string
`"ns/feat"` resolves to `("default", "ns/feat")`, not `("ns", "feat")`. -/
theorem c2_counterexample :
    unpack_list (.str "ns/feat") (some "default") =
      .ok [(some "default", some "ns/feat")] ∧
    unpack_list (.str "ns/feat") (some "default") ≠
      .ok [(some "ns", some "feat")] := by
  decide

/-- C2 (amended): for a bare string containing a separator, the resolver
returns (first segment, remaining segments rejoined) exactly when the
supplied default namespace is absent or empty; a truthy default namespace
takes precedence and the string is passed through unsplit. -/
theorem c2_resolver_slash_split (ns : Option String) (n : String)
    (h : containsSlash n = true) :
    (pytruthy ns = false → unpack_list (.str n) ns = .ok [splitNameSpec n]) ∧
    (pytruthy ns = true → unpack_list (.str n) ns = .ok [(ns, some n)]) := by
  have hne : (n == "") = false := by
    rcases hn : n == "" with _ | _
    · rfl
    · rw [show n = "" from by simpa using hn] at h
      exact absurd h (by decide)
  constructor <;> intro hns <;>
    simp [unpack_list, split_name_some_eq, hns, hne, h]

/-- C2 witness: with no default namespace, `"a/b/c"` resolves to namespace
`"a"` and name `"b/c"`. -/
theorem c2_resolver_slash_split_w :
    containsSlash "a/b/c" = true ∧
    unpack_list (.str "a/b/c") none = .ok [(some "a", some "b/c")] :=
  ⟨by decide,
   ((c2_resolver_slash_split none "a/b/c" (by decide)).1 (by decide)).trans (by decide)⟩

/-- C10: in a list input, a mapping element is resolved from its own
`namespace`/`name` keys only — the caller-supplied default namespace is not
consulted (the whole unpacking of an all-mapping list is independent of it),
and a mapping without a `namespace` key resolves with namespace `None`
unless its name value contains a separator, in which case the name's first
segment becomes the namespace. -/
theorem c10_dict_items_ignore_default (ns : Option String) (items : List IdItem)
    (hd : ∀ i ∈ items, ∃ d, i = IdItem.dict d) :
    unpack_list (.list items) ns = unpack_list (.list items) none ∧
    ∀ d n, dGet d "namespace" = none → dGet d "name" = some n →
      unpack_item ns (.dict d) =
        .ok (if (!(n == "") && containsSlash n) then splitNameSpec n
             else (none, some n)) := by
  constructor
  · show items.mapM (unpack_item ns) = items.mapM (unpack_item none)
    induction items with
    | nil => rfl
    | cons i rest ih =>
      obtain ⟨d, rfl⟩ := hd i (by simp)
      rw [List.mapM_cons, List.mapM_cons,
          ih (fun j hj => hd j (by simp [hj]))]
      rfl
  · intro d n hns hname
    show Except.ok (split_name (dGet d "namespace") (dGet d "name")) = _
    rw [hns, hname, split_name_some_eq]
    rfl

/-- C10 witness: a two-mapping list, one mapping with a plain name and one
with a slash-qualified name; the default namespace `"default"` is ignored. -/
theorem c10_dict_items_ignore_default_w :
    unpack_list (.list [.dict [("name", "plain")], .dict [("name", "x/y")]]) (some "default") =
      unpack_list (.list [.dict [("name", "plain")], .dict [("name", "x/y")]]) none ∧
    unpack_item (some "default") (.dict [("name", "plain")]) = .ok (none, some "plain") ∧
    unpack_item (some "default") (.dict [("name", "x/y")]) = .ok (some "x", some "y") := by
  refine ⟨(c10_dict_items_ignore_default (some "default")
      [.dict [("name", "plain")], .dict [("name", "x/y")]]
      (by intro i hi
          rcases List.mem_cons.mp hi with h | h2
          · exact ⟨[("name", "plain")], h⟩
          · exact ⟨[("name", "x/y")], by simpa using h2⟩)).1, ?_, ?_⟩
  · exact ((c10_dict_items_ignore_default (some "default") [] (fun i hi => nomatch hi)).2
      [("name", "plain")] "plain" (by decide) (by decide)).trans (by decide)
  · exact ((c10_dict_items_ignore_default (some "default") [] (fun i hi => nomatch hi)).2
      [("name", "x/y")] "x/y" (by decide) (by decide)).trans (by decide)

/-!
## Lemmas about sorted time indexes
-/

theorem mem_insNat (x a : Nat) (l : List Nat) : x ∈ insNat a l ↔ x = a ∨ x ∈ l := by
  induction l with
  | nil => simp [insNat]
  | cons y ys ih =>
    unfold insNat
    by_cases h1 : a = y
    · subst h1
      simp only [if_pos rfl]
      constructor
      · intro h; exact Or.inr h
      · rintro (rfl | h)
        · simp
        · exact h
    · rw [if_neg h1]
      by_cases h2 : a < y
      · simp only [if_pos h2, List.mem_cons]
      · simp only [if_neg h2, List.mem_cons, ih]
        tauto

theorem pairwise_insNat (a : Nat) (l : List Nat) (hl : List.Pairwise (· < ·) l) :
    List.Pairwise (· < ·) (insNat a l) := by
  induction l with
  | nil => simp [insNat]
  | cons y ys ih =>
    rw [List.pairwise_cons] at hl
    obtain ⟨hy, hys⟩ := hl
    unfold insNat
    by_cases h1 : a = y
    · subst h1
      rw [if_pos rfl, List.pairwise_cons]
      exact ⟨hy, hys⟩
    · rw [if_neg h1]
      by_cases h2 : a < y
      · rw [if_pos h2, List.pairwise_cons, List.pairwise_cons]
        refine ⟨?_, hy, hys⟩
        intro b hb
        rcases List.mem_cons.mp hb with rfl | hb
        · exact h2
        · exact lt_trans h2 (hy b hb)
      · rw [if_neg h2, List.pairwise_cons]
        have hya : y < a := by omega
        refine ⟨?_, ih hys⟩
        intro b hb
        rcases (mem_insNat b a ys).mp hb with rfl | hb
        · exact hya
        · exact hy b hb

theorem mem_sortedUnion (x : Nat) (xs ys : List Nat) :
    x ∈ sortedUnion xs ys ↔ x ∈ xs ∨ x ∈ ys := by
  induction xs with
  | nil => simp [sortedUnion]
  | cons a as ih =>
    show x ∈ insNat a (sortedUnion as ys) ↔ _
    rw [mem_insNat, ih]
    simp [List.mem_cons, or_assoc]

theorem pairwise_sortedUnion (xs ys : List Nat) (hys : List.Pairwise (· < ·) ys) :
    List.Pairwise (· < ·) (sortedUnion xs ys) := by
  induction xs with
  | nil => exact hys
  | cons a as ih => exact pairwise_insNat a (sortedUnion as ys) ih

theorem mem_unionAll (t : Nat) (dfs : List Series) :
    t ∈ unionAll dfs ↔ ∃ d ∈ dfs, t ∈ times d := by
  induction dfs with
  | nil => simp [unionAll]
  | cons d rest ih =>
    show t ∈ sortedUnion (times d) (unionAll rest) ↔ _
    rw [mem_sortedUnion, ih]
    simp

theorem pairwise_unionAll (dfs : List Series) :
    List.Pairwise (· < ·) (unionAll dfs) := by
  induction dfs with
  | nil => exact List.Pairwise.nil
  | cons d rest ih => exact pairwise_sortedUnion (times d) (unionAll rest) ih

theorem sorted_nat_eq_of_mem_iff (a b : List Nat)
    (ha : List.Pairwise (· < ·) a) (hb : List.Pairwise (· < ·) b)
    (h : ∀ x, x ∈ a ↔ x ∈ b) : a = b := by
  haveI : IsAntisymm Nat (· < ·) := ⟨fun x y h1 h2 => absurd h1 (Nat.lt_asymm h2)⟩
  have hna : a.Nodup := ha.imp (fun h => Nat.ne_of_lt h)
  have hnb : b.Nodup := hb.imp (fun h => Nat.ne_of_lt h)
  exact List.eq_of_perm_of_sorted ((List.perm_ext_iff_of_nodup hna hnb).mpr h) ha hb

theorem insNat_of_forall_lt (x : Nat) (l : List Nat) (h : ∀ y ∈ l, x < y) :
    insNat x l = x :: l := by
  cases l with
  | nil => rfl
  | cons y ys =>
    have hxy : x < y := h y (by simp)
    unfold insNat
    rw [if_neg (Nat.ne_of_lt hxy), if_pos hxy]

theorem sortedUnion_nil_of_pairwise (l : List Nat) (hl : List.Pairwise (· < ·) l) :
    sortedUnion l [] = l := by
  induction l with
  | nil => rfl
  | cons a as ih =>
    rw [List.pairwise_cons] at hl
    obtain ⟨ha, has⟩ := hl
    show insNat a (sortedUnion as []) = a :: as
    rw [ih has]
    exact insNat_of_forall_lt a as ha

/-!
## Lemmas about per-series lookups and forward-fill
-/

theorem lookupT_eq_none (d : Series) (t : Nat) (h : t ∉ times d) :
    lookupT d t = none := by
  unfold lookupT
  rw [List.find?_eq_none.mpr]
  · rfl
  · intro x hx
    simp only [Bool.not_eq_true, beq_eq_false_iff_ne]
    intro hx1
    exact h (hx1 ▸ List.mem_map_of_mem Prod.fst hx)

theorem lookupT_cons_ne (t : Nat) (v : Int) (s : Nat) (rest : Series) (h : s ≠ t) :
    lookupT ((t, v) :: rest) s = lookupT rest s := by
  unfold lookupT
  rw [List.find?_cons_of_neg]
  simpa using fun h' => h h'.symm

theorem filter_all_gt_nil (d : Series) (u : Nat) (h : ∀ x ∈ times d, u < x) :
    d.filter (fun x => x.1 ≤ u) = [] := by
  rw [List.filter_eq_nil_iff]
  intro x hx
  have := h x.1 (List.mem_map_of_mem Prod.fst hx)
  simp
  omega

/-- Forward-fill characterization of one merge step: on a strictly sorted
series, taking the cell at `u` when present and the carried value from
strictly before `u` otherwise is exactly the last value at or before `u`. -/
theorem lastLE_eq_orElse (d : Series) (hd : TSorted d) (u : Nat) :
    lastLE d u = (lookupT d u).orElse (fun _ => lastLT d u) := by
  induction d with
  | nil => rfl
  | cons x rest ih =>
    obtain ⟨t, v⟩ := x
    unfold TSorted times at hd
    rw [List.map_cons, List.pairwise_cons] at hd
    obtain ⟨hgt, hrest⟩ := hd
    rcases Nat.lt_trichotomy u t with hut | hut | hut
    · -- t > u: everything in the series is after u
      have hnone : ((t, v) :: rest).filter (fun x => x.1 ≤ u) = [] := by
        apply filter_all_gt_nil
        intro y hy
        unfold times at hy
        rw [List.map_cons, List.mem_cons] at hy
        rcases hy with rfl | hy
        · exact hut
        · exact lt_trans hut (hgt y hy)
      have hlk : lookupT ((t, v) :: rest) u = none := by
        apply lookupT_eq_none
        unfold times
        rw [List.map_cons, List.mem_cons]
        push_neg
        refine ⟨by omega, ?_⟩
        intro hy
        have := hgt u hy
        omega
      have hlt : ((t, v) :: rest).filter (fun x => decide (x.1 < u)) = [] := by
        rw [List.filter_eq_nil_iff]
        intro y hy
        have h1 : y.1 ≤ u → False := by
          have := filter_all_gt_nil ((t, v) :: rest) u ?_
          · intro hle
            have : y ∈ (((t, v) :: rest).filter (fun x => x.1 ≤ u)) :=
              List.mem_filter.mpr ⟨hy, by simpa using hle⟩
            rw [filter_all_gt_nil] at this
            · cases this
            · intro z hz
              unfold times at hz
              rw [List.map_cons, List.mem_cons] at hz
              rcases hz with rfl | hz
              · exact hut
              · exact lt_trans hut (hgt z hz)
          · intro z hz
            unfold times at hz
            rw [List.map_cons, List.mem_cons] at hz
            rcases hz with rfl | hz
            · exact hut
            · exact lt_trans hut (hgt z hz)
        simp only [Bool.not_eq_true, decide_eq_false_iff_not]
        intro hlt'
        exact h1 (le_of_lt hlt')
      unfold lastLE lastLT
      rw [hnone, hlk, hlt]
      rfl
    · -- t = u: the head is the observation at u and nothing later is ≤ u
      subst hut
      have hlk : lookupT ((u, v) :: rest) u = some v := by
        unfold lookupT
        rw [List.find?_cons_of_pos] <;> simp
      have hfil : ((u, v) :: rest).filter (fun x => x.1 ≤ u) = [(u, v)] := by
        rw [List.filter_cons_of_pos (by simp)]
        rw [filter_all_gt_nil rest u hgt]
      unfold lastLE
      rw [hfil, hlk]
      rfl
    · -- t < u: the head is kept by both filters; recurse on the tail
      have hlk : lookupT ((t, v) :: rest) u = lookupT rest u := by
        apply lookupT_cons_ne
        omega
      have hle : ((t, v) :: rest).filter (fun x => x.1 ≤ u) =
          (t, v) :: rest.filter (fun x => x.1 ≤ u) :=
        List.filter_cons_of_pos (by simpa using le_of_lt hut)
      have hltf : ((t, v) :: rest).filter (fun x => decide (x.1 < u)) =
          (t, v) :: rest.filter (fun x => decide (x.1 < u)) :=
        List.filter_cons_of_pos (by simpa using hut)
      unfold lastLE lastLT at ih ⊢
      rw [hle, hltf, hlk]
      rcases hfr : rest.filter (fun x => x.1 ≤ u) with _ | ⟨w, ws⟩
      · -- no observation of the tail at or before u
        have hfr' : rest.filter (fun x => decide (x.1 < u)) = [] := by
          rw [List.filter_eq_nil_iff] at hfr ⊢
          intro y hy
          have := hfr y hy
          simp only [Bool.not_eq_true, decide_eq_false_iff_not] at this ⊢
          omega
        have hlknone : lookupT rest u = none := by
          apply lookupT_eq_none
          intro hmem
          unfold times at hmem
          obtain ⟨y, hy, hy1⟩ := List.mem_map.mp hmem
          have := List.filter_eq_nil_iff.mp hfr y hy
          simp only [Bool.not_eq_true, decide_eq_false_iff_not] at this
          omega
        rw [hfr, hfr', hlknone]
        rfl
      · -- the tail has observations at or before u; its last one wins
        rw [hfr]
        rw [hfr] at ih
        have ih' := ih hrest
        rcases hlkr : lookupT rest u with _ | w'
        · -- no exact observation at u: the ≤-filter and <-filter agree
          have hsame : rest.filter (fun x => decide (x.1 < u)) =
              rest.filter (fun x => x.1 ≤ u) := by
            apply List.filter_congr
            intro y hy
            have hne : y.1 ≠ u := by
              intro heq
              have hfind : rest.find? (fun x => x.1 == u) = none := by
                rcases hf : rest.find? (fun x => x.1 == u) with _ | z
                · exact hf
                · exfalso
                  unfold lookupT at hlkr
                  rw [hf] at hlkr
                  cases hlkr
              have := List.find?_eq_none.mp hfind y hy
              simp at this
              exact this heq
            simp only [decide_eq_decide]
            omega
          rw [hsame, hfr]
          rw [List.getLast?_cons_cons]
          rfl
        · -- an exact observation at u exists: it is the last of the ≤-filter
          rw [hlkr] at ih'
          rw [List.getLast?_cons_cons]
          simpa using ih'

/-- When no observation of `d` falls in the open interval `(u, u')`, the
forward-filled value at `u` is still the carried value strictly before `u'`. -/
theorem lastLE_eq_lastLT_gap (d : Series) (u u' : Nat) (huu : u < u')
    (hgap : ∀ x ∈ times d, ¬(u < x ∧ x < u')) :
    lastLE d u = lastLT d u' := by
  unfold lastLE lastLT
  congr 1
  congr 1
  apply List.filter_congr
  intro x hx
  have := hgap x.1 (List.mem_map_of_mem Prod.fst hx)
  simp only [decide_eq_decide]
  omega

theorem zipWith_map_same {α β γ δ : Type} (h : β → γ → δ) (f : α → β) (g : α → γ)
    (l : List α) :
    List.zipWith h (l.map f) (l.map g) = l.map (fun x => h (f x) (g x)) := by
  induction l with
  | nil => rfl
  | cons a as ih => simp [ih]

theorem map_eq_replicate_none {α : Type} (l : List α) (f : α → Option Int)
    (h : ∀ x ∈ l, f x = none) : l.map f = List.replicate l.length none := by
  induction l with
  | nil => rfl
  | cons a as ih =>
    rw [List.map_cons, h a (by simp), List.length_cons, List.replicate_succ,
        ih (fun x hx => h x (by simp [hx]))]

/-- The heart of C3: running the forward-fill scan over the outer-joined
rows of `sers` along a strictly sorted index `U` that is closed downwards
over the observation times (every observation time at or below a member of
`U` is in `U` or below all of `U`), starting from a carry that holds each
series' last value strictly before the first index point, yields at every
index point each series' last value at or before that point. -/
theorem ffillRows_go (sers : List Series) (hs : ∀ d ∈ sers, TSorted d) :
    ∀ (U : List Nat) (carry : List (Option Int)),
      List.Pairwise (· < ·) U →
      (∀ d ∈ sers, ∀ x ∈ times d, ∀ v ∈ U, x ≤ v → (x ∈ U ∨ ∀ u ∈ U, x < u)) →
      (∀ u₀, U.head? = some u₀ → carry = sers.map (fun d => lastLT d u₀)) →
      ffillRows carry (U.map (fun t => (t, sers.map (fun d => lookupT d t)))) =
        U.map (fun t => (t, sers.map (fun d => lastLE d t))) := by
  intro U
  induction U with
  | nil => intro carry _ _ _; rfl
  | cons u us ih =>
    intro carry hU hcov hcarry
    have hc : carry = sers.map (fun d => lastLT d u) := hcarry u rfl
    rw [List.pairwise_cons] at hU
    obtain ⟨hu_lt, hus⟩ := hU
    rw [List.map_cons]
    show (u, List.zipWith (fun v c => v.orElse (fun _ => c))
            (sers.map (fun d => lookupT d u)) carry) ::
         ffillRows (List.zipWith (fun v c => v.orElse (fun _ => c))
            (sers.map (fun d => lookupT d u)) carry)
           (us.map (fun t => (t, sers.map (fun d => lookupT d t)))) = _
    have hmerged : List.zipWith (fun v c => v.orElse (fun _ => c))
        (sers.map (fun d => lookupT d u)) carry =
        sers.map (fun d => lastLE d u) := by
      rw [hc, zipWith_map_same]
      exact List.map_congr_left (fun d hd => (lastLE_eq_orElse d (hs d hd) u).symm)
    rw [hmerged, List.map_cons]
    congr 1
    apply ih
    · exact hus
    · intro d hd x hx v hv hxv
      rcases hcov d hd x hx v (by simp [hv]) hxv with hmem | hall
      · rcases List.mem_cons.mp hmem with rfl | hmem
        · exact Or.inr (fun w hw => hu_lt w hw)
        · exact Or.inl hmem
      · exact Or.inr (fun w hw => hall w (by simp [hw]))
    · intro u' hu'
      rcases us with _ | ⟨u'', us'⟩
      · cases hu'
      · have heq : u'' = u' := by
          simpa using hu'
        subst heq
        have hlt : u < u'' := hu_lt u'' (by simp)
        apply List.map_congr_left
        intro d hd
        apply lastLE_eq_lastLT_gap d u u'' hlt
        intro x hx ⟨hux, hxu'⟩
        rcases hcov d hd x hx u'' (by simp) (le_of_lt hxu') with hmem | hall
        · rcases List.mem_cons.mp hmem with rfl | hmem
          · omega
          · rcases List.mem_cons.mp hmem with rfl | hmem
            · omega
            · have := List.pairwise_cons.mp hus
              have := this.1 x hmem
              omega
        · have := hall u (by simp)
          omega

/-- If `u₀` is the first element of a strictly sorted, downward-closed index
covering all observation times, no observation lies strictly before it. -/
theorem lastLT_head_none (d : Series) (U : List Nat) (u₀ : Nat)
    (hU : List.Pairwise (· < ·) U) (hhead : U.head? = some u₀)
    (hmem : ∀ x ∈ times d, x ∈ U) : lastLT d u₀ = none := by
  rcases U with _ | ⟨w, ws⟩
  · cases hhead
  have hw : w = u₀ := by simpa using hhead
  subst hw
  rw [List.pairwise_cons] at hU
  unfold lastLT
  rw [List.filter_eq_nil_iff.mpr]
  · rfl
  · intro x hx
    have hxt : x.1 ∈ times d := List.mem_map_of_mem Prod.fst hx
    rcases List.mem_cons.mp (hmem x.1 hxt) with h | h
    · simp [h]
    · have := hU.1 x.1 h
      simp
      omega

/-- C3 core: the pandas combine of non-empty, strictly sorted series is the
table indexed on the union of all their times whose cell for series `d` at
time `t` is `d`'s last value at or before `t`. -/
theorem combine_pandas_spec (sers : List Series) (hs : ∀ d ∈ sers, TSorted d)
    (hne : sers ≠ []) :
    combine_pandas sers =
      .ok ⟨sers.length,
           (unionAll sers).map (fun t => (t, sers.map (fun d => lastLE d t)))⟩ := by
  rcases sers with _ | ⟨d0, rest⟩
  · exact absurd rfl hne
  show Except.ok (ffillT (concatOuter (d0 :: rest))) = _
  unfold ffillT concatOuter
  congr 1
  simp only
  rw [ffillRows_go (d0 :: rest) hs (unionAll (d0 :: rest))
        (List.replicate (d0 :: rest).length none)
        (pairwise_unionAll _)
        ?_ ?_]
  · intro d hd x hx v _ _
    exact Or.inl ((mem_unionAll x _).mpr ⟨d, hd, hx⟩)
  · intro u₀ hu₀
    rw [map_eq_replicate_none]
    intro d hd
    exact lastLT_head_none d (unionAll (d0 :: rest)) u₀ (pairwise_unionAll _) hu₀
      (fun x hx => (mem_unionAll x _).mpr ⟨d, hd, hx⟩)

/-!
## Lemmas relating the two combine strategies
-/

theorem find?_map_key {β : Type} (U : List Nat) (f : Nat → β) (t : Nat) (ht : t ∈ U) :
    (U.map (fun u => (u, f u))).find? (fun r => r.1 == t) = some (t, f t) := by
  induction U with
  | nil => cases ht
  | cons u us ih =>
    rw [List.map_cons]
    by_cases h : u = t
    · subst h
      rw [List.find?_cons_of_pos _ (by simp)]
    · rw [List.find?_cons_of_neg _ (by simpa using h)]
      refine ih ?_
      rcases List.mem_cons.mp ht with rfl | ht2
      · exact absurd rfl h
      · exact ht2

theorem find?_map_key_none {β : Type} (U : List Nat) (f : Nat → β) (t : Nat)
    (ht : t ∉ U) :
    (U.map (fun u => (u, f u))).find? (fun r => r.1 == t) = none := by
  rw [List.find?_eq_none]
  intro x hx
  obtain ⟨u, hu, rfl⟩ := List.mem_map.mp hx
  simp only [Bool.not_eq_true, beq_eq_false_iff_ne]
  intro h
  exact ht (h ▸ hu)

theorem rowAt_concatOuter (dfs : List Series) (t : Nat) :
    rowAt (concatOuter dfs) t = dfs.map (fun d => lookupT d t) := by
  unfold rowAt concatOuter
  by_cases ht : t ∈ unionAll dfs
  · rw [find?_map_key (unionAll dfs) _ t ht]
  · rw [find?_map_key_none (unionAll dfs) _ t ht]
    show List.replicate dfs.length none = _
    refine (map_eq_replicate_none dfs _ ?_).symm
    intro d hd
    exact lookupT_eq_none d t (fun hx => ht ((mem_unionAll t dfs).mpr ⟨d, hd, hx⟩))

theorem rowAt_toTable (d : Series) (t : Nat) :
    rowAt (toTable d) t = [lookupT d t] := by
  unfold rowAt toTable lookupT
  rw [List.find?_map]
  rcases h : d.find? (fun x => x.1 == t) with _ | x
  · rw [show (fun (r : Nat × List (Option Int)) => r.1 == t) ∘
        (fun (x : Nat × Int) => (x.1, [some x.2])) = fun x => x.1 == t from rfl, h]
    rfl
  · rw [show (fun (r : Nat × List (Option Int)) => r.1 == t) ∘
        (fun (x : Nat × Int) => (x.1, [some x.2])) = fun x => x.1 == t from rfl, h]
    rfl

theorem rowTimes_concatOuter (dfs : List Series) :
    rowTimes (concatOuter dfs) = unionAll dfs := by
  unfold rowTimes concatOuter
  rw [List.map_map]
  exact List.map_id _

theorem rowTimes_toTable (d : Series) : rowTimes (toTable d) = times d := by
  unfold rowTimes toTable times
  rw [List.map_map]
  rfl

theorem map_lookup_self (d : Series) (hd : TSorted d) :
    (times d).map (fun t => (t, [lookupT d t])) = d.map (fun x => (x.1, [some x.2])) := by
  induction d with
  | nil => rfl
  | cons x rest ih =>
    obtain ⟨t, v⟩ := x
    unfold TSorted times at hd
    rw [List.map_cons, List.pairwise_cons] at hd
    obtain ⟨hgt, hrest⟩ := hd
    show ((t :: times rest).map (fun s => (s, [lookupT ((t, v) :: rest) s]))) = _
    rw [List.map_cons, List.map_cons]
    congr 1
    · have hlk : lookupT ((t, v) :: rest) t = some v := by
        unfold lookupT
        rw [List.find?_cons_of_pos _ (by simp)]
        rfl
      rw [hlk]
    · rw [← ih hrest]
      apply List.map_congr_left
      intro s hs
      have hlk : lookupT ((t, v) :: rest) s = lookupT rest s :=
        lookupT_cons_ne t v s rest (by have := hgt s hs; omega)
      rw [hlk]

theorem toTable_eq_concatOuter (d : Series) (hd : TSorted d) :
    toTable d = concatOuter [d] := by
  unfold toTable concatOuter
  have hU : unionAll [d] = times d := by
    show sortedUnion (times d) [] = times d
    exact sortedUnion_nil_of_pairwise (times d) hd
  rw [hU]
  show Table.mk 1 (d.map (fun x => (x.1, [some x.2]))) =
    Table.mk 1 ((times d).map (fun t => (t, [lookupT d t])))
  rw [← map_lookup_self d hd]

theorem merge_concat_step (pre : List Series) (r : Series) (hr : TSorted r) :
    mergeOuter (concatOuter pre) (toTable r) = concatOuter (pre ++ [r]) := by
  unfold mergeOuter
  have hidx : sortedUnion (rowTimes (concatOuter pre)) (rowTimes (toTable r)) =
      unionAll (pre ++ [r]) := by
    rw [rowTimes_concatOuter, rowTimes_toTable]
    apply sorted_nat_eq_of_mem_iff
    · exact pairwise_sortedUnion _ _ hr
    · exact pairwise_unionAll _
    · intro x
      rw [mem_sortedUnion, mem_unionAll, mem_unionAll]
      constructor
      · rintro (⟨d, hd, hx⟩ | hx)
        · exact ⟨d, by simp [hd], hx⟩
        · exact ⟨r, by simp, hx⟩
      · rintro ⟨d, hd, hx⟩
        rcases List.mem_append.mp hd with hd | hd
        · exact Or.inl ⟨d, hd, hx⟩
        · have hdr : d = r := by simpa using hd
          subst hdr
          exact Or.inr hx
  rw [hidx]
  show Table.mk ((concatOuter pre).width + (toTable r).width) _ = _
  unfold concatOuter toTable
  congr 1
  · simp
  apply List.map_congr_left
  intro t ht
  rw [show (Table.mk pre.length
        ((unionAll pre).map (fun u => (u, pre.map (fun d => lookupT d u))))) =
      concatOuter pre from rfl,
      show (Table.mk 1 (r.map (fun x => (x.1, [some x.2])))) = toTable r from rfl,
      rowAt_concatOuter, rowAt_toTable]
  rw [List.map_append]
  rfl

theorem fold_merge_concat (rest : List Series) :
    ∀ (pre : List Series), (∀ d ∈ rest, TSorted d) →
      rest.foldl (fun acc r => mergeOuter acc (toTable r)) (concatOuter pre) =
        concatOuter (pre ++ rest) := by
  induction rest with
  | nil => intro pre _; simp
  | cons r rest' ih =>
    intro pre hall
    rw [List.foldl_cons, merge_concat_step pre r (hall r (by simp)),
        ih (pre ++ [r]) (fun d hd => hall d (by simp [hd]))]
    simp

/-- C3: a successful multi-feature `load_dataframe` in the default pandas
mode returns the table indexed on the union of the requested features'
timestamps (`unionAll`), where the column of each series `d` at a union
timestamp `t` holds `d`'s last value at or before `t` (`lastLE`): its own
observation at `t` when one exists, the forward-filled preceding value at
union timestamps contributed only by other features, and a missing cell
before `d`'s first observation.  The hypotheses state that identifier
resolution and every catalog lookup succeed and that each backend series is
strictly time-sorted (its `time` index is the primary index, spec §6). -/
theorem c3_load_outer_join_ffill (st : CatalogState)
    (backend : Option String → Option String → Series) (features : IdInput)
    (pairs : List (Option String × Option String)) (sers : List Series)
    (hu : unpack_list features none = .ok pairs)
    (hl : pairs.mapM (load_one st backend) = .ok sers)
    (hne : sers ≠ [])
    (hs : ∀ d ∈ sers, TSorted d) :
    load_dataframe st backend features "pandas" =
      .ok ⟨sers.length,
           (unionAll sers).map (fun t => (t, sers.map (fun d => lastLE d t)))⟩ := by
  have h1 : load_dataframe st backend features "pandas" =
      (match unpack_list features none with
       | .error e => Except.error e
       | .ok ps =>
         match ps.mapM (load_one st backend) with
         | .error e => Except.error e
         | .ok dfs => combine_pandas dfs) := rfl
  rw [h1, hu]
  show (match pairs.mapM (load_one st backend) with
        | .error e => Except.error e
        | .ok dfs => combine_pandas dfs) = _
  rw [hl]
  show combine_pandas sers = _
  exact combine_pandas_spec sers hs hne

/-- C3 witness: features `ns/a` (times 1, 3) and `ns/b` (time 2 only); the
result is indexed on {1, 2, 3} with `a` forward-filled at 2 and `b` missing
at 1 and forward-filled at 3. -/
theorem c3_load_outer_join_ffill_w :
    load_dataframe
      ⟨[], [{ nspace := some "ns", name := some "a" },
            { nspace := some "ns", name := some "b" }]⟩
      (fun _ n => if n == some "a" then [(1, 10), (3, 30)] else [(2, 200)])
      (.list [.str "ns/a", .str "ns/b"]) "pandas" =
      .ok ⟨2, [(1, [some 10, none]), (2, [some 10, some 200]),
               (3, [some 30, some 200])]⟩ := by
  have h := c3_load_outer_join_ffill
    ⟨[], [{ nspace := some "ns", name := some "a" },
          { nspace := some "ns", name := some "b" }]⟩
    (fun _ n => if n == some "a" then [(1, 10), (3, 30)] else [(2, 200)])
    (.list [.str "ns/a", .str "ns/b"])
    [(some "ns", some "a"), (some "ns", some "b")]
    [[(1, 10), (3, 30)], [(2, 200)]]
    (by decide) (by decide) (by decide) (by decide)
  exact h.trans (by decide)

/-!
## Adequacy of the recursion depth in `save_dataframe`

`save_dataframe` runs `save_dataframe_aux` at depth 2.  The lemmas below
show the depth never matters beyond 2: every frame the multi-column branch
recurses on has exactly one feature column, so its call takes the
non-recursive single-column branch and any depth `k + 2` computes the same
result.  The depth-0 default is therefore unreachable from `save_dataframe`.
-/

theorem mem_insertStr (x a : String) (l : List String) :
    x ∈ insertStr a l ↔ x = a ∨ x ∈ l := by
  induction l with
  | nil => simp [insertStr]
  | cons y ys ih =>
    unfold insertStr
    split
    · next h1 =>
      subst h1
      simp only [List.mem_cons]
      tauto
    · next h1 =>
      split
      · simp only [List.mem_cons]
      · simp only [List.mem_cons, ih]
        tauto

theorem mem_sortDedup (x : String) (l : List String) : x ∈ sortDedup l ↔ x ∈ l := by
  induction l with
  | nil => simp [sortDedup]
  | cons a as ih =>
    show x ∈ insertStr a (sortDedup as) ↔ _
    rw [mem_insertStr, ih, List.mem_cons]

theorem featureColumns_subframe (df : DFrame) (fname : String)
    (h : fname ∈ featureColumns df) :
    featureColumns (subframe df (featureColumns df) fname) = [fname] := by
  have hfn := List.mem_filter.mp ((mem_sortDedup _ _).mp h)
  show sortDedup (((sortDedup (df.cols.filter
      (fun c => !((featureColumns df).contains c)))) ++ [fname]).filter
      (fun c => !(c == "time" || c == "created_time"))) = [fname]
  rw [List.filter_append]
  have h1 : (sortDedup (df.cols.filter (fun c => !((featureColumns df).contains c)))).filter
      (fun c => !(c == "time" || c == "created_time")) = [] := by
    rw [List.filter_eq_nil_iff]
    intro c hc
    have hc' := List.mem_filter.mp ((mem_sortDedup _ _).mp hc)
    have hcnotf : c ∉ featureColumns df := by
      simpa [List.contains, List.elem_iff] using hc'.2
    intro hp
    exact hcnotf ((mem_sortDedup _ _).mpr (List.mem_filter.mpr ⟨hc'.1, hp⟩))
  have h2 : ([fname].filter (fun c => !(c == "time" || c == "created_time"))) = [fname] := by
    simp only [List.filter_cons, hfn.2, if_true, List.filter_nil]
  rw [h1, h2]
  rfl

theorem save_dataframe_aux_single (st : CatalogState) (df : DFrame)
    (name ns : Option String) (h : (featureColumns df).length = 1) (m : Nat) :
    save_dataframe_aux (m + 1) st df name ns = save_dataframe_aux 1 st df name ns := by
  have hb : ((featureColumns df).length == 1) = true := by simpa using h
  simp only [save_dataframe_aux, hb, if_true]

theorem save_dataframe_fuel_indep (k : Nat) (st : CatalogState) (df : DFrame)
    (name ns : Option String) :
    save_dataframe_aux (k + 2) st df name ns = save_dataframe st df name ns := by
  unfold save_dataframe
  by_cases h1 : (featureColumns df).length = 1
  · rw [show k + 2 = (k + 1) + 1 from rfl,
        save_dataframe_aux_single st df name ns h1 (k + 1),
        show (2 : Nat) = 1 + 1 from rfl,
        save_dataframe_aux_single st df name ns h1 1]
  · have hb : ((featureColumns df).length == 1) = false := by simpa using h1
    show save_dataframe_aux ((k + 1) + 1) st df name ns =
      save_dataframe_aux (1 + 1) st df name ns
    simp only [save_dataframe_aux, hb, Bool.false_eq_true, if_false]
    rcases hF : (featureColumns df).find?
        (fun _ => !(exists_recs st.features ns name)) with _ | x
    · simp only
      have hgen : ∀ (l : List String), (∀ f ∈ l, f ∈ featureColumns df) →
          ∀ (acc : List SaveEvent × Option String),
          l.foldl (fun acc fname =>
            match acc with
            | (evs, some e) => (evs, some e)
            | (evs, none) =>
              let r := save_dataframe_aux (k + 1) st
                (subframe df (featureColumns df) fname) none none
              (evs ++ r.1, r.2)) acc =
          l.foldl (fun acc fname =>
            match acc with
            | (evs, some e) => (evs, some e)
            | (evs, none) =>
              let r := save_dataframe_aux 1 st
                (subframe df (featureColumns df) fname) none none
              (evs ++ r.1, r.2)) acc := by
        intro l
        induction l with
        | nil => intro _ _; rfl
        | cons f fs ih =>
          intro hl acc
          rw [List.foldl_cons, List.foldl_cons]
          have hsub1 : (featureColumns (subframe df (featureColumns df) f)).length = 1 := by
            rw [featureColumns_subframe df f (hl f (by simp))]
            rfl
          have hstep : (match acc with
              | (evs, some e) => (evs, some e)
              | (evs, none) =>
                let r := save_dataframe_aux (k + 1) st
                  (subframe df (featureColumns df) f) none none
                (evs ++ r.1, r.2)) =
              (match acc with
              | (evs, some e) => (evs, some e)
              | (evs, none) =>
                let r := save_dataframe_aux 1 st
                  (subframe df (featureColumns df) f) none none
                (evs ++ r.1, r.2)) := by
            rcases acc with ⟨evs, _ | e⟩
            · show (evs ++ (save_dataframe_aux (k + 1) st
                  (subframe df (featureColumns df) f) none none).1,
                  (save_dataframe_aux (k + 1) st
                  (subframe df (featureColumns df) f) none none).2) = _
              rw [save_dataframe_aux_single st
                  (subframe df (featureColumns df) f) none none hsub1 k]
            · rfl
          rw [hstep]
          exact ih (fun x hx => hl x (by simp [hx])) _
      exact hgen (featureColumns df) (fun f hf => hf) ([], none)
    · rfl

/-!
## Erasure and label lemmas for the two combine strategies
-/

theorem erase_toLTable (label : String) (d : Series) :
    eraseLabels (toLTable label d) = toTable d := rfl

theorem erase_concatOuterL (dfs : List (String × Series)) :
    eraseLabels (concatOuterL dfs) = concatOuter (dfs.map Prod.snd) := by
  unfold eraseLabels concatOuterL
  show Table.mk (dfs.map Prod.fst).length _ = _
  rw [List.length_map]
  show Table.mk dfs.length (concatOuter (dfs.map Prod.snd)).rows = _
  unfold concatOuter
  rw [List.length_map]

theorem erase_mergeOuterL (l r : LTable) :
    eraseLabels (mergeOuterL l r) = mergeOuter (eraseLabels l) (eraseLabels r) := by
  unfold eraseLabels mergeOuterL
  rw [List.length_append, List.length_map, List.length_map]
  rfl

theorem erase_ffillL (tb : LTable) : eraseLabels (ffillL tb) = ffillT (eraseLabels tb) := rfl

theorem erase_foldl_merge (rest : List (String × Series)) :
    ∀ (acc : LTable),
      eraseLabels (rest.foldl (fun a r => mergeOuterL a (toLTable r.1 r.2)) acc) =
        rest.foldl (fun a r => mergeOuter a (toTable r.2)) (eraseLabels acc) := by
  induction rest with
  | nil => intro acc; rfl
  | cons r rest' ih =>
    intro acc
    rw [List.foldl_cons, List.foldl_cons, ih, erase_mergeOuterL, erase_toLTable]

theorem erase_combine_pandas (dfs : List (String × Series)) :
    combine_pandas (dfs.map Prod.snd) = (combine_pandas_labeled dfs).map eraseLabels := by
  cases dfs with
  | nil => rfl
  | cons d rest =>
    show Except.ok (ffillT (concatOuter ((d :: rest).map Prod.snd))) =
      Except.ok (eraseLabels (ffillL (concatOuterL (d :: rest))))
    rw [erase_ffillL, erase_concatOuterL]

theorem erase_combine_dask (dfs : List (String × Series)) :
    combine_dask (dfs.map Prod.snd) = (combine_dask_labeled dfs).map eraseLabels := by
  cases dfs with
  | nil => rfl
  | cons d rest =>
    show Except.ok (ffillT ((rest.map Prod.snd).foldl
        (fun acc r => mergeOuter acc (toTable r)) (toTable d.2))) =
      Except.ok (eraseLabels (ffillL (rest.foldl
        (fun acc r => mergeOuterL acc (toLTable r.1 r.2)) (toLTable d.1 d.2))))
    rw [erase_ffillL, erase_foldl_merge, erase_toLTable, List.foldl_map]

theorem load_one_erase (st : CatalogState)
    (backend : Option String → Option String → Series)
    (p : Option String × Option String) :
    load_one st backend p = (load_one_labeled st backend p).map Prod.snd := by
  unfold load_one load_one_labeled
  rcases hfil : st.features.filter (fun f => f.name == p.2 && f.nspace == p.1) with _ | ⟨f, _ | ⟨g, l⟩⟩ <;>
    rw [hfil] <;> rfl

theorem mapM_load_erase (st : CatalogState)
    (backend : Option String → Option String → Series)
    (pairs : List (Option String × Option String)) :
    pairs.mapM (load_one st backend) =
      (pairs.mapM (load_one_labeled st backend)).map (List.map Prod.snd) := by
  induction pairs with
  | nil => rfl
  | cons p ps ih =>
    rw [List.mapM_cons, List.mapM_cons, load_one_erase, ih]
    rcases load_one_labeled st backend p with e | x
    · rfl
    · rcases ps.mapM (load_one_labeled st backend) with e | xs
      · rfl
      · rfl

/-- The label-erased `load_dataframe` is exactly the labeled one with its
labels dropped, for every mode: the two embeddings of store.py:267-322 are
consistent. -/
theorem load_dataframe_erase (st : CatalogState)
    (backend : Option String → Option String → Series)
    (features : IdInput) (mode : String) :
    load_dataframe st backend features mode =
      (load_dataframe_labeled st backend features mode).map eraseLabels := by
  unfold load_dataframe load_dataframe_labeled
  by_cases hmode : (!(mode == "dask" || mode == "pandas")) = true
  · rw [if_pos hmode, if_pos hmode]
    rfl
  · rw [if_neg hmode, if_neg hmode]
    rcases unpack_list features none with e | pairs
    · rfl
    · show (match pairs.mapM (load_one st backend) with
            | .error e => Except.error e
            | .ok dfs => if mode == "pandas" then combine_pandas dfs else combine_dask dfs) =
        (match pairs.mapM (load_one_labeled st backend) with
         | .error e => Except.error e
         | .ok dfs =>
           if mode == "pandas" then combine_pandas_labeled dfs
           else combine_dask_labeled dfs).map eraseLabels
      rw [mapM_load_erase st backend pairs]
      rcases pairs.mapM (load_one_labeled st backend) with e | lsers
      · rfl
      · show (if mode == "pandas" then combine_pandas (lsers.map Prod.snd)
              else combine_dask (lsers.map Prod.snd)) =
          (if mode == "pandas" then combine_pandas_labeled lsers
           else combine_dask_labeled lsers).map eraseLabels
        by_cases hp : (mode == "pandas") = true
        · rw [if_pos hp, if_pos hp, erase_combine_pandas]
        · rw [if_neg hp, if_neg hp, erase_combine_dask]

theorem toLTable_eq_concatOuterL (label : String) (d : Series) (hd : TSorted d) :
    toLTable label d = concatOuterL [(label, d)] := by
  unfold toLTable concatOuterL
  rw [toTable_eq_concatOuter d hd]
  rfl

theorem mergeL_concat_step (pre : List (String × Series)) (label : String) (r : Series)
    (hr : TSorted r) (hlabel : label ∉ pre.map Prod.fst) :
    mergeOuterL (concatOuterL pre) (toLTable label r) = concatOuterL (pre ++ [(label, r)]) := by
  unfold mergeOuterL
  have hnames : (concatOuterL pre).names.map
        (fun n => if (toLTable label r).names.contains n then n ++ "_x" else n) ++
      (toLTable label r).names.map
        (fun n => if (concatOuterL pre).names.contains n then n ++ "_y" else n) =
      (pre ++ [(label, r)]).map Prod.fst := by
    show (pre.map Prod.fst).map (fun n => if [label].contains n then n ++ "_x" else n) ++
      [label].map (fun n => if (pre.map Prod.fst).contains n then n ++ "_y" else n) = _
    have h1 : (pre.map Prod.fst).map (fun n => if [label].contains n then n ++ "_x" else n) =
        pre.map Prod.fst := by
      have := List.map_congr_left (l := pre.map Prod.fst)
        (f := fun n => if [label].contains n then n ++ "_x" else n) (g := id) ?_
      · rw [this, List.map_id]
      · intro n hn
        have hne : n ≠ label := fun h => hlabel (h ▸ hn)
        simp [hne]
    have h2 : [label].map (fun n => if (pre.map Prod.fst).contains n then n ++ "_y" else n) =
        [label] := by
      have hnc : ((pre.map Prod.fst).contains label) = false := by
        simpa [List.contains, List.elem_iff] using hlabel
      rw [List.map_cons, List.map_nil, hnc]
      rfl
    rw [h1, h2, List.map_append]
    rfl
  have hrows : (mergeOuter (eraseLabels (concatOuterL pre)) (eraseLabels (toLTable label r))).rows =
      (concatOuter ((pre ++ [(label, r)]).map Prod.snd)).rows := by
    rw [erase_concatOuterL, erase_toLTable, merge_concat_step (pre.map Prod.snd) r hr,
        List.map_append]
    rfl
  rw [hnames, hrows]
  rfl

theorem foldL_merge_concat (rest : List (String × Series)) :
    ∀ (pre : List (String × Series)), (∀ p ∈ rest, TSorted p.2) →
      ((pre ++ rest).map Prod.fst).Nodup →
      rest.foldl (fun acc r => mergeOuterL acc (toLTable r.1 r.2)) (concatOuterL pre) =
        concatOuterL (pre ++ rest) := by
  induction rest with
  | nil => intro pre _ _; simp
  | cons r rest' ih =>
    intro pre hs hnd
    have hlabel : r.1 ∉ pre.map Prod.fst := by
      rw [List.map_append] at hnd
      have hdisj := (List.nodup_append.mp hnd).2.2
      intro hmem
      exact hdisj hmem (by simp)
    rw [List.foldl_cons, mergeL_concat_step pre r.1 r.2 (hs r (by simp)) hlabel]
    have hre : pre ++ [(r.1, r.2)] = pre ++ [r] := by simp
    rw [hre, ih (pre ++ [r]) (fun p hp => hs p (by simp [hp]))
        (by simpa [List.append_assoc] using hnd)]
    simp

/-- C4 counterexample: requesting the same feature twice.  Both per-feature
frames are renamed to the column label `ns/a` (store.py:310); the pandas
concat keeps the duplicate labels while the dask merge suffixes the
overlapping pair to `ns/a_x`/`ns/a_y`, so the two modes' materialized
results differ in their columns even though index and values agree —
refuting the claim that every features argument yields the same rows,
columns and values. -/
theorem c4_counterexample :
    load_dataframe_labeled
        ⟨[], [{ nspace := some "ns", name := some "a" }]⟩
        (fun _ _ => [(1, 10)]) (.list [.str "ns/a", .str "ns/a"]) "pandas" =
      .ok ⟨["ns/a", "ns/a"], [(1, [some 10, some 10])]⟩ ∧
    load_dataframe_labeled
        ⟨[], [{ nspace := some "ns", name := some "a" }]⟩
        (fun _ _ => [(1, 10)]) (.list [.str "ns/a", .str "ns/a"]) "dask" =
      .ok ⟨["ns/a_x", "ns/a_y"], [(1, [some 10, some 10])]⟩ ∧
    load_dataframe_labeled
        ⟨[], [{ nspace := some "ns", name := some "a" }]⟩
        (fun _ _ => [(1, 10)]) (.list [.str "ns/a", .str "ns/a"]) "pandas" ≠
      load_dataframe_labeled
        ⟨[], [{ nspace := some "ns", name := some "a" }]⟩
        (fun _ _ => [(1, 10)]) (.list [.str "ns/a", .str "ns/a"]) "dask" := by
  refine ⟨by decide, by decide, by decide⟩

/-- C4 (amended): for every features argument whose resolved
`"namespace/name"` column labels are pairwise distinct, and the same
ambient `from_date`/`to_date`/`freq`/`time_travel` passed through to the
backend, a successful `load_dataframe` produces the same materialized
result in both modes — same index, same column labels, same values: with no
label overlap the dask merge never suffixes, and the fold of pairwise outer
index-merges equals the in-memory outer concat (when labels collide, only
the column labels differ between the modes, as `c4_counterexample` shows).
The hypotheses state that resolution and every lookup succeed and that
each backend series is strictly time-sorted. -/
theorem c4_load_modes_agree_distinct (st : CatalogState)
    (backend : Option String → Option String → Series) (features : IdInput)
    (pairs : List (Option String × Option String)) (lsers : List (String × Series))
    (hu : unpack_list features none = .ok pairs)
    (hl : pairs.mapM (load_one_labeled st backend) = .ok lsers)
    (hne : lsers ≠ [])
    (hs : ∀ p ∈ lsers, TSorted p.2)
    (hnames : (lsers.map Prod.fst).Nodup) :
    load_dataframe_labeled st backend features "pandas" =
      load_dataframe_labeled st backend features "dask" := by
  have h1 : load_dataframe_labeled st backend features "pandas" =
      (match unpack_list features none with
       | .error e => Except.error e
       | .ok ps =>
         match ps.mapM (load_one_labeled st backend) with
         | .error e => Except.error e
         | .ok dfs => combine_pandas_labeled dfs) := rfl
  have h2 : load_dataframe_labeled st backend features "dask" =
      (match unpack_list features none with
       | .error e => Except.error e
       | .ok ps =>
         match ps.mapM (load_one_labeled st backend) with
         | .error e => Except.error e
         | .ok dfs => combine_dask_labeled dfs) := rfl
  rw [h1, h2, hu]
  show (match pairs.mapM (load_one_labeled st backend) with
        | .error e => Except.error e
        | .ok dfs => combine_pandas_labeled dfs) =
       (match pairs.mapM (load_one_labeled st backend) with
        | .error e => Except.error e
        | .ok dfs => combine_dask_labeled dfs)
  rw [hl]
  show combine_pandas_labeled lsers = combine_dask_labeled lsers
  rcases lsers with _ | ⟨d0, rest⟩
  · exact absurd rfl hne
  show Except.ok (ffillL (concatOuterL (d0 :: rest))) =
    Except.ok (ffillL (rest.foldl (fun acc r => mergeOuterL acc (toLTable r.1 r.2))
      (toLTable d0.1 d0.2)))
  rw [toLTable_eq_concatOuterL d0.1 d0.2 (hs d0 (by simp))]
  have hre : concatOuterL [(d0.1, d0.2)] = concatOuterL [d0] := by simp
  rw [hre, foldL_merge_concat rest [d0] (fun p hp => hs p (by simp [hp]))
      (by simpa using hnames)]
  rfl

/-- C4 witness: two distinct features loaded in both modes. -/
theorem c4_load_modes_agree_distinct_w :
    load_dataframe_labeled
      ⟨[], [{ nspace := some "ns", name := some "a" },
            { nspace := some "ns", name := some "b" }]⟩
      (fun _ n => if n == some "a" then [(1, 10), (4, 40)] else [(2, 200), (3, 300)])
      (.list [.str "ns/a", .str "ns/b"]) "pandas" =
    load_dataframe_labeled
      ⟨[], [{ nspace := some "ns", name := some "a" },
            { nspace := some "ns", name := some "b" }]⟩
      (fun _ n => if n == some "a" then [(1, 10), (4, 40)] else [(2, 200), (3, 300)])
      (.list [.str "ns/a", .str "ns/b"]) "dask" :=
  c4_load_modes_agree_distinct
    ⟨[], [{ nspace := some "ns", name := some "a" },
          { nspace := some "ns", name := some "b" }]⟩
    (fun _ n => if n == some "a" then [(1, 10), (4, 40)] else [(2, 200), (3, 300)])
    (.list [.str "ns/a", .str "ns/b"])
    [(some "ns", some "a"), (some "ns", some "b")]
    [("ns/a", [(1, 10), (4, 40)]), ("ns/b", [(2, 200), (3, 300)])]
    (by decide) (by decide) (by decide) (by decide) (by decide)
